import Mathlib

/-!
Shallow embedding of the filtering-and-aggregation pipeline of
src/Task5_Dashboard.py.

The dashboard loads a fixed-schema sales table with pandas, filters it by
region, segment, category and an inclusive order-date range (lines 29 to 35),
and computes grouped views for the charts.  We model:

* a pandas dataframe as an ordered `List Row`, where nullable categorical
  columns are `Option String` and nullable date columns are `Option Date`
  (a missing value models NaN / NaT);
* currency columns as integers (amounts in minor units);
* boolean-mask filtering as `List.filter`;
* `Series.isin` as list membership, which is false on a missing value,
  exactly as `NaN.isin([...])` is false in pandas;
* comparisons between a missing date and a bound as false, exactly as
  comparisons with NaT are false in pandas;
* `groupby(k)[v].sum()` as grouping over the distinct non-missing keys in
  sorted key order (pandas groups with `sort=True` and `dropna=True`);
* `sort_values(ascending=False)` as a stable descending sort
  (`List.insertionSort`), following the design note of the spec that ties
  are ordered by first appearance in the sorted pass;
* `pivot(...).fillna(0)` as a dense grid over the distinct row and column
  keys present in the grouped data, with 0 at absent combinations.
-/

/-- Calendar date, ordered lexicographically by year, month, day.  Models the
values of the parsed `Order Date` column. -/
structure Date where
  year : Int
  month : Int
  day : Int
deriving DecidableEq, Repr

/-- Boolean date comparison, true when `a` is on or before `b`. -/
def Date.ble (a b : Date) : Bool :=
  decide (a.year < b.year ∨ (a.year = b.year ∧
    (a.month < b.month ∨ (a.month = b.month ∧ a.day ≤ b.day))))

/-- One sales transaction line of the loaded table (section 3 of the spec;
the columns of Global_Superstore2.csv used by the dashboard).  Categorical
and date columns are optional because the source file may have missing
values; numeric columns hold currency amounts in minor units. -/
structure Row where
  order_id : String
  order_date : Option Date
  ship_date : Option Date
  region : Option String
  segment : Option String
  category : Option String
  sub_category : Option String
  ship_mode : Option String
  state : Option String
  sales : Int
  profit : Int
  discount : Int
  shipping_cost : Int
deriving DecidableEq, Repr

/-- The sidebar filter controls (lines 23 to 26 of Task5_Dashboard.py):
three multiselect value lists and an inclusive order-date range. -/
structure FilterPred where
  regions : List String
  segments : List String
  categories : List String
  date_start : Date
  date_end : Date
deriving DecidableEq, Repr

/-- Membership test of an optional categorical value in a selected list,
modelling `Series.isin(selection)`: a missing value is in no selection. -/
def optIsin (v : Option String) (s : List String) : Bool :=
  match v with
  | some x => s.contains x
  | none => false

/-- Lower date bound test, modelling `df[c] >= start`: false on a missing
date, as every comparison with NaT is false in pandas. -/
def dateGe (v : Option Date) (d : Date) : Bool :=
  match v with
  | some x => Date.ble d x
  | none => false

/-- Upper date bound test, modelling `df[c] <= end`: false on a missing
date. -/
def dateLe (v : Option Date) (d : Date) : Bool :=
  match v with
  | some x => Date.ble x d
  | none => false

/-- The conjunctive row mask of lines 29 to 35 of Task5_Dashboard.py:
region, segment and category must be selected and the order date must lie
in the inclusive range. -/
def rowPred (p : FilterPred) (r : Row) : Bool :=
  optIsin r.region p.regions && optIsin r.segment p.segments &&
    optIsin r.category p.categories &&
    dateGe r.order_date p.date_start && dateLe r.order_date p.date_end

/-- Boolean-mask filtering producing `filtered_df` (line 29): the subsequence
of the table whose rows satisfy the mask. -/
def applyFilter (t : List Row) (p : FilterPred) : List Row :=
  t.filter (rowPred p)

/-- Sum of a numeric column over the rows of a table, modelling
`Series.sum()` (which returns 0 on an empty series). -/
def sumBy (f : Row → Int) (rows : List Row) : Int :=
  (rows.map f).sum

/-- Grouped sum aggregation, modelling
`rows.groupby(key)[field].sum().reset_index()`: one output row per distinct
non-missing key, in ascending key order (pandas groups with `sort=True`),
each carrying the sum of the field over the rows with that key.  Rows whose
key is missing are dropped (pandas groups with `dropna=True`). -/
def groupSum {κ : Type} [DecidableEq κ] (r : κ → κ → Prop) [DecidableRel r]
    (key : Row → Option κ) (f : Row → Int) (rows : List Row) : List (κ × Int) :=
  (List.insertionSort r (rows.filterMap key).dedup).map
    (fun k => (k, sumBy f (rows.filter (fun row => decide (key row = some k)))))

/-- Lexicographic order on composite group keys, used when grouping by two
columns. -/
def pairLe (a b : String × String) : Prop :=
  a.1 < b.1 ∨ (a.1 = b.1 ∧ a.2 ≤ b.2)

instance : DecidableRel pairLe := fun a b => by
  unfold pairLe
  infer_instance

/-- Total Sales KPI (line 43): `filtered_df[Sales].sum()`. -/
def total_sales (fd : List Row) : Int :=
  sumBy (·.sales) fd

/-- Total Profit KPI (line 44): `filtered_df[Profit].sum()`. -/
def total_profit (fd : List Row) : Int :=
  sumBy (·.profit) fd

/-- Average Shipping KPI (line 45): `filtered_df[Shipping Cost].mean()`.
The mean of an empty series is NaN in pandas, modelled here as `none`
(the no-data value). -/
def avg_shipping (fd : List Row) : Option Rat :=
  if fd.isEmpty then none
  else some ((sumBy (·.shipping_cost) fd : Rat) / (fd.length : Rat))

/-- Total Orders KPI (line 46): `filtered_df[Order ID].nunique()`, the
number of distinct order identifiers. -/
def total_orders (fd : List Row) : Nat :=
  ((fd.map (·.order_id)).dedup).length

/-- Sales by Region view (line 66):
`filtered_df.groupby(Region)[Sales].sum().reset_index()`. -/
def region_sales (fd : List Row) : List (String × Int) :=
  groupSum (· ≤ ·) (·.region) (·.sales) fd

/-- Grouping key of the Yearly Sales Trend view: the year component of the
order date (line 74, `Order Date.dt.year`), missing when the date is. -/
def year_key (r : Row) : Option Int :=
  r.order_date.map (·.year)

/-- Yearly Sales Trend view (line 75):
`df_year.groupby(Year)[Sales].sum().reset_index()`. -/
def year_sales (fd : List Row) : List (Int × Int) :=
  groupSum (· ≤ ·) year_key (·.sales) fd

/-- Profit summed per state, the `groupby(State)[Profit].sum()` part of
line 82, in ascending state order as produced by groupby. -/
def state_profit (fd : List Row) : List (String × Int) :=
  groupSum (· ≤ ·) (·.state) (·.profit) fd

/-- Descending-profit order on the rows of the per-state view, used by
`sort_values(ascending=False)` at line 82. -/
def profitDesc (a b : String × Int) : Prop :=
  b.2 ≤ a.2

instance : DecidableRel profitDesc := fun a b => by
  unfold profitDesc
  infer_instance

instance : IsTotal (String × Int) profitDesc :=
  ⟨fun a b => le_total b.2 a.2⟩

instance : IsTrans (String × Int) profitDesc :=
  ⟨fun _ _ _ h1 h2 => le_trans h2 h1⟩

/-- The full sorted pass of line 82: the per-state profit view stably
sorted by descending profit. -/
def sorted_state_profit (fd : List Row) : List (String × Int) :=
  List.insertionSort profitDesc (state_profit fd)

/-- Top 10 States by Profit view (line 82):
`groupby(State)[Profit].sum().sort_values(ascending=False).head(10)`. -/
def top_states (fd : List Row) : List (String × Int) :=
  (sorted_state_profit fd).take 10

/-- Composite key of the treemap view: category and sub-category, missing
when either component is (pandas drops a group row when any grouping key
is NaN). -/
def cat_key (r : Row) : Option (String × String) :=
  match r.category, r.sub_category with
  | some c, some s => some (c, s)
  | _, _ => none

/-- Sales by Category and Sub-Category view (line 94):
`filtered_df.groupby([Category, Sub-Category])[Sales].sum().reset_index()`. -/
def cat_sales (fd : List Row) : List ((String × String) × Int) :=
  groupSum pairLe cat_key (·.sales) fd

/-- Sales by Ship Mode view (line 109):
`filtered_df.groupby(Ship Mode)[Sales].sum().reset_index()`. -/
def ship_sales (fd : List Row) : List (String × Int) :=
  groupSum (· ≤ ·) (·.ship_mode) (·.sales) fd

/-- Composite key of the heatmap aggregation: region and segment, missing
when either component is. -/
def rs_key (r : Row) : Option (String × String) :=
  match r.region, r.segment with
  | some a, some b => some (a, b)
  | _, _ => none

/-- Heatmap aggregation (line 116):
`filtered_df.groupby([Region, Segment])[Profit].sum().reset_index()`. -/
def heat_data (fd : List Row) : List ((String × String) × Int) :=
  groupSum pairLe rs_key (·.profit) fd

/-- Distinct region values appearing in the grouped heatmap data: the row
index of the pivot at line 117. -/
def hregs (fd : List Row) : List String :=
  ((heat_data fd).map (·.1.1)).dedup

/-- Distinct segment values appearing in the grouped heatmap data: the
column index of the pivot at line 117. -/
def hsegs (fd : List Row) : List String :=
  ((heat_data fd).map (·.1.2)).dedup

/-- One cell of the pivoted heatmap: the grouped profit of the (region,
segment) pair when present, else the `fillna(0)` value 0. -/
def cellVal (hd : List ((String × String) × Int)) (rg sg : String) : Int :=
  match hd.find? (fun e => decide (e.1 = (rg, sg))) with
  | some e => e.2
  | none => 0

/-- Profit Heatmap view (line 117):
`heat_data.pivot(index=Region, columns=Segment, values=Profit).fillna(0)`,
one output row per region in the pivot index, each holding one cell per
segment in the pivot columns. -/
def heat_pivot (fd : List Row) : List (String × List (String × Int)) :=
  (hregs fd).map
    (fun rg => (rg, (hsegs fd).map (fun sg => (sg, cellVal (heat_data fd) rg sg))))

/-- Sum of the aggregated values over all rows of a grouped view. -/
def sumVals {κ : Type} (l : List (κ × Int)) : Int :=
  (l.map (·.2)).sum

/-- The mutable surface of the dashboard script: the loaded table bound to
`df` at line 19.  The script never rebinds or mutates `df`; filtering binds
the new name `filtered_df`. -/
structure DashboardState where
  table : List Row
deriving DecidableEq, Repr

/-- One filter interaction: from the current state and the sidebar
predicate, produce the state afterwards together with `filtered_df`.
The script computes `filtered_df` from `df` without reassigning `df`. -/
def run_filter (s : DashboardState) (p : FilterPred) : DashboardState × List Row :=
  (s, applyFilter s.table p)

/-- Distinct non-missing values of a categorical column, modelling
`df[col].dropna().unique()`, which builds both the option list and the
default selection of each sidebar multiselect (lines 23 to 25). -/
def distinct_nonnull (key : Row → Option String) (t : List Row) : List String :=
  (t.filterMap key).dedup

/-- Default region selection (line 23). -/
def default_regions (t : List Row) : List String :=
  distinct_nonnull (·.region) t

/-- Default segment selection (line 24). -/
def default_segments (t : List Row) : List String :=
  distinct_nonnull (·.segment) t

/-- Default category selection (line 25). -/
def default_categories (t : List Row) : List String :=
  distinct_nonnull (·.category) t

/-- Transitivity of the lexicographic date order. -/
theorem Date.ble_trans {a b c : Date} (h1 : Date.ble a b = true)
    (h2 : Date.ble b c = true) : Date.ble a c = true := by
  simp only [Date.ble, decide_eq_true_eq] at *
  omega

/-- Example row used to instantiate hypotheses of the proved theorems. -/
def exRow : Row :=
  { order_id := "CA-1001", order_date := some ⟨2012, 3, 5⟩,
    ship_date := some ⟨2012, 3, 8⟩, region := some "East",
    segment := some "Consumer", category := some "Furniture",
    sub_category := some "Chairs", ship_mode := some "First Class",
    state := some "Ohio", sales := 100, profit := 10, discount := 0,
    shipping_cost := 3 }

/-- Example predicate that accepts `exRow`. -/
def exPred : FilterPred :=
  { regions := ["East"], segments := ["Consumer"],
    categories := ["Furniture"], date_start := ⟨2012, 1, 1⟩,
    date_end := ⟨2012, 12, 31⟩ }

/-- Example predicate whose start date is strictly after its end date. -/
def exPredBad : FilterPred :=
  { regions := ["East"], segments := ["Consumer"],
    categories := ["Furniture"], date_start := ⟨2013, 1, 1⟩,
    date_end := ⟨2012, 1, 1⟩ }

/-- Example row passing `exPred` but with a missing ship mode. -/
def nullShipRow : Row :=
  { exRow with ship_mode := none, sales := 5 }

/-- Example row with a missing region. -/
def nullRegionRow : Row :=
  { exRow with region := none }

/-- Example predicate whose date range lies after the date of `exRow`, so
it excludes every example row. -/
def exPredLate : FilterPred :=
  { exPred with date_start := ⟨2013, 1, 1⟩, date_end := ⟨2013, 12, 31⟩ }

/-- Example predicate with every control at its default for the one-row
table containing `nullRegionRow`. -/
def exPredDefault : FilterPred :=
  { regions := default_regions [nullRegionRow],
    segments := default_segments [nullRegionRow],
    categories := default_categories [nullRegionRow],
    date_start := ⟨2012, 1, 1⟩, date_end := ⟨2012, 12, 31⟩ }

/-- Membership of the key of a row in a list of group keys; false when the
key is missing.  Helper for summing a grouped view by parts. -/
def inKeys {κ : Type} [DecidableEq κ] (key : Row → Option κ) (ks : List κ)
    (row : Row) : Bool :=
  decide (∃ k ∈ ks, key row = some k)

/-- Claim C1: every row of `applyFilter t p` satisfies all conjuncts of the
mask, every row of `t` satisfying the mask appears in the output, and the
output is a subsequence of `t`, so output rows keep their original relative
order. -/
theorem filter_rows_correct (t : List Row) (p : FilterPred) :
    (∀ r ∈ applyFilter t p, rowPred p r = true) ∧
    (∀ r ∈ t, rowPred p r = true → r ∈ applyFilter t p) ∧
    (applyFilter t p).Sublist t :=
  ⟨fun r hr => (List.mem_filter.mp hr).2,
   fun r hr hp => List.mem_filter.mpr ⟨hr, hp⟩,
   List.filter_sublist t⟩

/-- Witness for C1: the accepted example row satisfies the mask and is kept
by the filter. -/
theorem filter_rows_correct_witness : exRow ∈ applyFilter [exRow] exPred :=
  (filter_rows_correct [exRow] exPred).2.1 exRow (by simp) (by decide)

/-- Claim C3: applying the same filter twice equals applying it once. -/
theorem applyFilter_idem (t : List Row) (p : FilterPred) :
    applyFilter (applyFilter t p) p = applyFilter t p := by
  simp [applyFilter, List.filter_filter]

/-- Claim C6: when the start date is strictly after the end date, the filter
does not fail and returns the empty table. -/
theorem invalid_range_empty (t : List Row) (p : FilterPred)
    (h : Date.ble p.date_start p.date_end = false) : applyFilter t p = [] := by
  apply List.filter_eq_nil_iff.mpr
  intro r _
  simp only [rowPred, Bool.and_eq_true, not_and]
  intro hconj hle
  have hge := hconj.2
  rcases hr : r.order_date with _ | d
  · rw [hr] at hle
    simp [dateLe] at hle
  · rw [hr] at hge hle
    simp only [dateGe, dateLe] at hge hle
    exact absurd (Date.ble_trans hge hle) (by simp [h])

/-- Witness for C6: a concrete inverted date range filters a one-row table
to the empty table. -/
theorem invalid_range_empty_witness : applyFilter [exRow] exPredBad = [] :=
  invalid_range_empty [exRow] exPredBad (by decide)

/-- Claim C8: a filter interaction leaves the dashboard state, in particular
the loaded table, unchanged, and its output is a subsequence of that table
rather than a mutation of it. -/
theorem run_filter_frame (s : DashboardState) (p : FilterPred) :
    (run_filter s p).1 = s ∧ (run_filter s p).2.Sublist s.table :=
  ⟨rfl, List.filter_sublist s.table⟩

/-- Summing a column distributes over a cons. -/
theorem sumBy_cons (f : Row → Int) (a : Row) (l : List Row) :
    sumBy f (a :: l) = f a + sumBy f l := by
  simp [sumBy]

/-- Splitting the rows covered by a fresh key off the rows covered by a key
list. -/
theorem sum_filter_cons {κ : Type} [DecidableEq κ] (key : Row → Option κ)
    (f : Row → Int) (k : κ) (ks : List κ) (hk : k ∉ ks) (rows : List Row) :
    sumBy f (rows.filter (fun row => decide (key row = some k))) +
      sumBy f (rows.filter (inKeys key ks)) =
      sumBy f (rows.filter (inKeys key (k :: ks))) := by
  induction rows with
  | nil => simp [sumBy]
  | cons a l ih =>
    simp only [List.filter_cons]
    by_cases h1 : key a = some k
    · have c1 : decide (key a = some k) = true := by simp [h1]
      have c2 : inKeys key ks a = false := by
        simp only [inKeys, decide_eq_false_iff_not]
        rintro ⟨k2, hk2, hkeq⟩
        rw [h1] at hkeq
        obtain rfl : k = k2 := by simpa using hkeq
        exact hk hk2
      have c3 : inKeys key (k :: ks) a = true := by
        simp only [inKeys, decide_eq_true_eq]
        exact ⟨k, List.mem_cons_self k ks, h1⟩
      simp [c1, c2, c3, sumBy_cons]
      omega
    · have c1 : decide (key a = some k) = false := by simp [h1]
      by_cases h2 : ∃ k2 ∈ ks, key a = some k2
      · have c2 : inKeys key ks a = true := by
          simp only [inKeys, decide_eq_true_eq]
          exact h2
        have c3 : inKeys key (k :: ks) a = true := by
          simp only [inKeys, decide_eq_true_eq]
          obtain ⟨k2, hk2, hkeq⟩ := h2
          exact ⟨k2, List.mem_cons_of_mem k hk2, hkeq⟩
        simp [c1, c2, c3, sumBy_cons]
        omega
      · have c2 : inKeys key ks a = false := by
          simp only [inKeys, decide_eq_false_iff_not]
          exact h2
        have c3 : inKeys key (k :: ks) a = false := by
          simp only [inKeys, decide_eq_false_iff_not]
          rintro ⟨k2, hk2, hkeq⟩
          rcases List.mem_cons.mp hk2 with rfl | hmem
          · exact h1 hkeq
          · exact h2 ⟨k2, hmem, hkeq⟩
        simp [c1, c2, c3]
        omega

/-- Summing a grouped view key by key over a duplicate-free key list equals
summing the rows covered by the key list. -/
theorem sum_over_keys {κ : Type} [DecidableEq κ] (key : Row → Option κ)
    (f : Row → Int) (ks : List κ) (hnd : ks.Nodup) (rows : List Row) :
    (ks.map (fun k =>
        sumBy f (rows.filter (fun row => decide (key row = some k))))).sum =
      sumBy f (rows.filter (inKeys key ks)) := by
  induction ks with
  | nil =>
    have hnil : rows.filter (inKeys key ([] : List κ)) = [] := by
      apply List.filter_eq_nil_iff.mpr
      intro row _
      simp [inKeys]
    simp [hnil, sumBy]
  | cons k ks ih =>
    obtain ⟨hk, hnd2⟩ : k ∉ ks ∧ ks.Nodup := by
      simpa [List.nodup_cons] using hnd
    simp only [List.map_cons, List.sum_cons]
    rw [ih hnd2, sum_filter_cons key f k ks hk rows]

/-- Summing the second components of a view built by pairing keys with
aggregated values. -/
theorem sumVals_map {κ : Type} (ks : List κ) (g : κ → Int) :
    sumVals (ks.map (fun k => (k, g k))) = (ks.map g).sum := by
  simp [sumVals, List.map_map, Function.comp_def]

/-- Conservation of a grouped sum: the aggregated values of
`groupSum` add up to the column sum over the rows with a non-missing key. -/
theorem groupSum_sum {κ : Type} [DecidableEq κ] (r : κ → κ → Prop)
    [DecidableRel r] (key : Row → Option κ) (f : Row → Int) (rows : List Row) :
    sumVals (groupSum r key f rows) =
      sumBy f (rows.filter (fun row => (key row).isSome)) := by
  unfold groupSum
  rw [sumVals_map]
  have hperm :=
    (List.perm_insertionSort r (rows.filterMap key).dedup).map
      (fun k => sumBy f (rows.filter (fun row => decide (key row = some k))))
  rw [hperm.sum_eq,
    sum_over_keys key f _ (rows.filterMap key).nodup_dedup rows]
  congr 1
  apply List.filter_congr
  intro row hrow
  rcases hka : key row with _ | k2
  · simp [inKeys, hka]
  · simp only [inKeys, hka, Option.isSome_some, decide_eq_true_eq]
    exact ⟨k2, List.mem_dedup.mpr (List.mem_filterMap.mpr ⟨row, hrow, hka⟩), rfl⟩

/-- Dropping the rows with a missing key does not change the extracted key
column. -/
theorem filterMap_filter_isSome {κ : Type} (key : Row → Option κ)
    (rows : List Row) :
    (rows.filter (fun row => (key row).isSome)).filterMap key =
      rows.filterMap key := by
  induction rows with
  | nil => rfl
  | cons a l ih =>
    rcases hka : key a with _ | k2 <;>
      simp [List.filter_cons, List.filterMap_cons, hka, ih]

/-- Grouping ignores the rows whose key is missing: grouping the table with
those rows removed gives the same view. -/
theorem groupSum_filter_isSome {κ : Type} [DecidableEq κ] (r : κ → κ → Prop)
    [DecidableRel r] (key : Row → Option κ) (f : Row → Int) (rows : List Row) :
    groupSum r key f (rows.filter (fun row => (key row).isSome)) =
      groupSum r key f rows := by
  unfold groupSum
  rw [filterMap_filter_isSome]
  apply List.map_congr_left
  intro k _
  have :
      (rows.filter (fun row => (key row).isSome)).filter
          (fun row => decide (key row = some k)) =
        rows.filter (fun row => decide (key row = some k)) := by
    rw [List.filter_filter]
    apply List.filter_congr
    intro row _
    rcases hka : key row with _ | k2 <;> simp [hka]
  rw [this]

/-- Every key of a grouped view is the key of some row of the table. -/
theorem mem_groupSum_keys {κ : Type} [DecidableEq κ] (r : κ → κ → Prop)
    [DecidableRel r] (key : Row → Option κ) (f : Row → Int) (rows : List Row)
    (k : κ) (v : Int) (h : (k, v) ∈ groupSum r key f rows) :
    ∃ row ∈ rows, key row = some k := by
  unfold groupSum at h
  rcases List.mem_map.mp h with ⟨k2, hk2, heq⟩
  obtain rfl : k2 = k := congrArg Prod.fst heq
  have hmem : k2 ∈ (rows.filterMap key).dedup :=
    ((List.perm_insertionSort r _).mem_iff).mp hk2
  exact List.mem_filterMap.mp (List.mem_dedup.mp hmem)

/-- A selected categorical value is present. -/
theorem optIsin_isSome {v : Option String} {s : List String}
    (h : optIsin v s = true) : v.isSome := by
  cases v <;> simp [optIsin] at h ⊢

/-- A date passing the lower bound is present. -/
theorem dateGe_isSome {v : Option Date} {d : Date}
    (h : dateGe v d = true) : v.isSome := by
  cases v <;> simp [dateGe] at h ⊢

/-- Rows surviving the filter have no missing value in any column the
filter constrains. -/
theorem filtered_row_nonnull (t : List Row) (p : FilterPred) (r : Row)
    (hr : r ∈ applyFilter t p) :
    r.region.isSome ∧ r.segment.isSome ∧ r.category.isSome ∧
      r.order_date.isSome := by
  have h := (List.mem_filter.mp hr).2
  simp only [rowPred, Bool.and_eq_true] at h
  obtain ⟨⟨⟨⟨hre, hse⟩, hca⟩, hge⟩, -⟩ := h
  exact ⟨optIsin_isSome hre, optIsin_isSome hse, optIsin_isSome hca,
    dateGe_isSome hge⟩


/-- Filtering through an ordered insertion: when the filtered class is
internally related, the inserted element lands in front of its class. -/
theorem filter_orderedInsert {α : Type} (p : α → Bool) (r : α → α → Prop)
    [DecidableRel r] (hcompat : ∀ a b, p a = true → p b = true → r a b)
    (x : α) (l : List α) :
    (List.orderedInsert r x l).filter p =
      if p x then x :: l.filter p else l.filter p := by
  induction l with
  | nil =>
    simp [List.orderedInsert, List.filter_cons]
  | cons y ys ih =>
    simp only [List.orderedInsert]
    by_cases hr : r x y
    · rw [if_pos hr]
      cases hpx : p x <;> cases hpy : p y <;>
        simp [List.filter_cons, hpx, hpy]
    · rw [if_neg hr]
      cases hpy : p y
      · cases hpx : p x <;>
          simp [List.filter_cons, hpy, hpx, ih]
      · cases hpx : p x
        · simp [List.filter_cons, hpy, hpx, ih]
        · exact absurd (hcompat x y hpx hpy) hr

/-- Stability of insertion sort on each class of mutually related
elements: the sorted pass keeps such elements in input order. -/
theorem filter_insertionSort {α : Type} (p : α → Bool) (r : α → α → Prop)
    [DecidableRel r] (hcompat : ∀ a b, p a = true → p b = true → r a b)
    (l : List α) :
    (List.insertionSort r l).filter p = l.filter p := by
  induction l with
  | nil => rfl
  | cons a l ih =>
    simp only [List.insertionSort]
    rw [filter_orderedInsert p r hcompat a _]
    cases hpa : p a <;> simp [List.filter_cons, hpa, ih]

/-- Unfolding a composite region-and-segment key. -/
theorem rs_key_eq {row : Row} {a b : String} (h : rs_key row = some (a, b)) :
    row.region = some a ∧ row.segment = some b := by
  unfold rs_key at h
  rcases hx : row.region with _ | x <;> rcases hy : row.segment with _ | y <;>
    rw [hx, hy] at h <;> simp_all

/-- Conservation of a grouped sum over a table where no key is missing. -/
theorem groupSum_sum_all {κ : Type} [DecidableEq κ] (r : κ → κ → Prop)
    [DecidableRel r] (key : Row → Option κ) (f : Row → Int) (rows : List Row)
    (h : ∀ row ∈ rows, (key row).isSome) :
    sumVals (groupSum r key f rows) = sumBy f rows := by
  rw [groupSum_sum]
  congr 1
  exact List.filter_eq_self.mpr (by simpa using h)

/-- Claim C9: every grouped view excludes rows whose grouping key is
missing: removing those rows leaves each view unchanged (they contribute
to no group), and every group key of a view is the key of a row where the
value is actually present (no placeholder group is created). -/
theorem group_null_excluded (fd : List Row) :
    (region_sales (fd.filter (fun r => r.region.isSome)) = region_sales fd ∧
     year_sales (fd.filter (fun r => (year_key r).isSome)) = year_sales fd ∧
     state_profit (fd.filter (fun r => r.state.isSome)) = state_profit fd ∧
     ship_sales (fd.filter (fun r => r.ship_mode.isSome)) = ship_sales fd ∧
     cat_sales (fd.filter (fun r => (cat_key r).isSome)) = cat_sales fd ∧
     heat_data (fd.filter (fun r => (rs_key r).isSome)) = heat_data fd) ∧
    (∀ kv ∈ region_sales fd, ∃ row ∈ fd, row.region = some kv.1) ∧
    (∀ kv ∈ ship_sales fd, ∃ row ∈ fd, row.ship_mode = some kv.1) ∧
    (∀ kv ∈ state_profit fd, ∃ row ∈ fd, row.state = some kv.1) ∧
    (∀ kv ∈ heat_data fd, ∃ row ∈ fd, rs_key row = some kv.1) := by
  refine ⟨⟨?_, ?_, ?_, ?_, ?_, ?_⟩, ?_, ?_, ?_, ?_⟩
  · exact groupSum_filter_isSome _ _ _ fd
  · exact groupSum_filter_isSome _ _ _ fd
  · exact groupSum_filter_isSome _ _ _ fd
  · exact groupSum_filter_isSome _ _ _ fd
  · exact groupSum_filter_isSome _ _ _ fd
  · exact groupSum_filter_isSome _ _ _ fd
  · intro kv hkv
    exact mem_groupSum_keys _ _ _ fd kv.1 kv.2 hkv
  · intro kv hkv
    exact mem_groupSum_keys _ _ _ fd kv.1 kv.2 hkv
  · intro kv hkv
    exact mem_groupSum_keys _ _ _ fd kv.1 kv.2 hkv
  · intro kv hkv
    exact mem_groupSum_keys _ _ _ fd kv.1 kv.2 hkv

/-- Witness for C9: the one group of the region view of the one-row example
table indeed has a present region value. -/
theorem group_null_excluded_witness :
    ∃ row ∈ [exRow], row.region = some "East" :=
  (group_null_excluded [exRow]).2.1 ("East", 100) (by decide)

/-- Claim C4 counterexample: a row with a missing ship mode passes the
filter (the mask never constrains ship mode), but the Ship Mode view drops
it, so the sum over the groups of that sum-based view is 0 while the sales
sum over the filtered table is 5. -/
theorem conservation_cex :
    applyFilter [nullShipRow] exPred = [nullShipRow] ∧
    sumVals (ship_sales (applyFilter [nullShipRow] exPred)) = 0 ∧
    total_sales (applyFilter [nullShipRow] exPred) = 5 := by
  refine ⟨?_, ?_, ?_⟩ <;> decide

/-- Claim C4 amended: the conservation law holds unconditionally for the
sum-based grouped views whose grouping keys are constrained by the filter
(Sales by Region, Yearly Trend, the heatmap aggregation), and for the
views grouped on an unconstrained key (Ship Mode, per-state profit,
Category and Sub-Category) it holds whenever no row of the filtered table
has a missing grouping key. -/
theorem conservation_amended (t : List Row) (p : FilterPred) :
    sumVals (region_sales (applyFilter t p)) = total_sales (applyFilter t p) ∧
    sumVals (year_sales (applyFilter t p)) = total_sales (applyFilter t p) ∧
    sumVals (heat_data (applyFilter t p)) = total_profit (applyFilter t p) ∧
    (∀ fd : List Row, (∀ r ∈ fd, r.ship_mode.isSome) →
      sumVals (ship_sales fd) = total_sales fd) ∧
    (∀ fd : List Row, (∀ r ∈ fd, r.state.isSome) →
      sumVals (state_profit fd) = total_profit fd) ∧
    (∀ fd : List Row, (∀ r ∈ fd, (cat_key r).isSome) →
      sumVals (cat_sales fd) = total_sales fd) := by
  refine ⟨?_, ?_, ?_, ?_, ?_, ?_⟩
  · exact groupSum_sum_all _ _ _ _
      (fun row hrow => (filtered_row_nonnull t p row hrow).1)
  · exact groupSum_sum_all _ _ _ _
      (fun row hrow => by
        simpa [year_key] using (filtered_row_nonnull t p row hrow).2.2.2)
  · refine groupSum_sum_all _ _ _ _ (fun row hrow => ?_)
    obtain ⟨hre, hse, -, -⟩ := filtered_row_nonnull t p row hrow
    rcases hx : row.region with _ | a
    · rw [hx] at hre
      simp at hre
    · rcases hy : row.segment with _ | b
      · rw [hy] at hse
        simp at hse
      · simp [rs_key, hx, hy]
  · exact fun fd h => groupSum_sum_all _ _ _ _ h
  · exact fun fd h => groupSum_sum_all _ _ _ _ h
  · exact fun fd h => groupSum_sum_all _ _ _ _ h

/-- Witness for C4: at the one-row example table the region view conserves
sales, and the Ship Mode view conserves them once every row has a present
ship mode. -/
theorem conservation_amended_witness :
    sumVals (region_sales (applyFilter [exRow] exPred)) =
      total_sales (applyFilter [exRow] exPred) ∧
    sumVals (ship_sales [exRow]) = total_sales [exRow] :=
  ⟨(conservation_amended [exRow] exPred).1,
   (conservation_amended [exRow] exPred).2.2.2.1 [exRow] (by decide)⟩

/-- Claim C5: the Top 10 States view has at most 10 rows, is sorted by
descending summed profit, is an initial segment of the full sorted pass
(every state beyond the tenth is dropped entirely), and the sorted pass is
a permutation of the per-state sums in which states with equal profit keep
their original, first-encountered order (the sort is stable). -/
theorem top_states_spec (fd : List Row) :
    (top_states fd).length ≤ 10 ∧
    List.Pairwise profitDesc (top_states fd) ∧
    (∃ rest, sorted_state_profit fd = top_states fd ++ rest) ∧
    List.Perm (sorted_state_profit fd) (state_profit fd) ∧
    (∀ q : Int, (sorted_state_profit fd).filter (fun e => decide (e.2 = q)) =
      (state_profit fd).filter (fun e => decide (e.2 = q))) := by
  refine ⟨?_, ?_,
    ⟨(sorted_state_profit fd).drop 10, (List.take_append_drop 10 _).symm⟩,
    List.perm_insertionSort _ _, ?_⟩
  · simp [top_states, List.length_take]
  · have hs : List.Sorted profitDesc (sorted_state_profit fd) :=
      List.sorted_insertionSort _ _
    exact hs.sublist (List.take_sublist _ _)
  · intro q
    apply filter_insertionSort
    intro a b ha hb
    simp only [decide_eq_true_eq] at ha hb
    unfold profitDesc
    rw [ha, hb]

/-- Claim C2 counterexample: with a filter whose date range excludes every
row, the grouped heatmap data is empty and the pivot of the empty grouped
data is the empty grid with zero cells, not the full dense grid of zeros;
the same one-row table pivots to a non-empty one-cell grid when the filter
keeps its row. -/
theorem heatmap_cex :
    applyFilter [exRow] exPredLate = [] ∧
    heat_pivot (applyFilter [exRow] exPredLate) = [] ∧
    heat_pivot [exRow] = [("East", [("Consumer", 10)])] := by
  refine ⟨?_, ?_, ?_⟩ <;> decide

/-- Claim C2 amended: the heatmap is a dense grid over the distinct regions
and distinct segments present in the grouped filtered data: it has one row
per such region, each with one cell per such segment, any (region, segment)
combination with no matching filtered rows holds profit 0, and when the
filter excludes all rows the grid is empty (zero cells) rather than the
full grid of zeros. -/
theorem heatmap_dense_amended (fd : List Row) :
    (heat_pivot fd).length = (hregs fd).length ∧
    (∀ pr ∈ heat_pivot fd, pr.2.length = (hsegs fd).length) ∧
    (∀ pr ∈ heat_pivot fd, ∀ c ∈ pr.2,
      (∀ row ∈ fd, ¬(row.region = some pr.1 ∧ row.segment = some c.1)) →
        c.2 = 0) ∧
    (fd = [] → heat_pivot fd = []) := by
  refine ⟨?_, ?_, ?_, ?_⟩
  · simp [heat_pivot]
  · intro pr hpr
    rcases List.mem_map.mp hpr with ⟨rg, hrg, rfl⟩
    simp
  · intro pr hpr c hc hnone
    rcases List.mem_map.mp hpr with ⟨rg, hrg, rfl⟩
    rcases List.mem_map.mp hc with ⟨sg, hsg, rfl⟩
    show cellVal (heat_data fd) rg sg = 0
    unfold cellVal
    rcases hfind : (heat_data fd).find? (fun e => decide (e.1 = (rg, sg)))
      with _ | e
    · rw [hfind]
    · exfalso
      have hmem := List.mem_of_find?_eq_some hfind
      have hkey : e.1 = (rg, sg) := by
        have := List.find?_some hfind
        simpa using this
      obtain ⟨k, v⟩ := e
      obtain rfl : k = (rg, sg) := hkey
      obtain ⟨row, hrow, hrs⟩ :=
        mem_groupSum_keys pairLe rs_key (·.profit) fd (rg, sg) v hmem
      exact hnone row hrow ⟨(rs_key_eq hrs).1, (rs_key_eq hrs).2⟩
  · rintro rfl
    rfl

/-- Witness for C2: the one-cell grid of the one-row example table has as
many rows as there are distinct regions present and one cell per distinct
segment present, and the pivot of the empty filtered table is the empty
grid. -/
theorem heatmap_dense_amended_witness :
    (heat_pivot [exRow]).length = (hregs [exRow]).length ∧
    ("East", [("Consumer", (10 : Int))]).2.length = (hsegs [exRow]).length ∧
    heat_pivot ([] : List Row) = [] :=
  ⟨(heatmap_dense_amended [exRow]).1,
   (heatmap_dense_amended [exRow]).2.1 ("East", [("Consumer", 10)]) (by decide),
   (heatmap_dense_amended []).2.2.2 rfl⟩

/-- Claim C7: when the filtered table is empty no view fails: the KPIs are
0 total sales, 0 total profit, the no-data marker for average shipping and
0 distinct orders, and every grouped view (including the heatmap grid) has
zero rows. -/
theorem empty_views_safe (t : List Row) (p : FilterPred)
    (h : applyFilter t p = []) :
    total_sales (applyFilter t p) = 0 ∧
    total_profit (applyFilter t p) = 0 ∧
    avg_shipping (applyFilter t p) = none ∧
    total_orders (applyFilter t p) = 0 ∧
    region_sales (applyFilter t p) = [] ∧
    year_sales (applyFilter t p) = [] ∧
    top_states (applyFilter t p) = [] ∧
    cat_sales (applyFilter t p) = [] ∧
    ship_sales (applyFilter t p) = [] ∧
    heat_data (applyFilter t p) = [] ∧
    heat_pivot (applyFilter t p) = [] := by
  rw [h]
  exact ⟨rfl, rfl, rfl, rfl, rfl, rfl, rfl, rfl, rfl, rfl, rfl⟩

/-- Witness for C7: at a concrete empty filter result the average shipping
KPI reports the no-data value. -/
theorem empty_views_safe_witness :
    avg_shipping (applyFilter [exRow] exPredBad) = none :=
  (empty_views_safe [exRow] exPredBad (by decide)).2.2.1

/-- Claim C10: when the multiselect controls are at their defaults (the
distinct non-missing values of each column), a row with a missing region,
segment or category satisfies no membership conjunct, hence is excluded
from the filtered table whatever the date range is. -/
theorem default_filter_excludes_null (t : List Row) (p : FilterPred)
    (hr : p.regions = default_regions t) (hs : p.segments = default_segments t)
    (hc : p.categories = default_categories t) (r : Row)
    (hnull : r.region = none ∨ r.segment = none ∨ r.category = none) :
    r ∉ applyFilter t p := by
  intro hmem
  have h := (List.mem_filter.mp hmem).2
  simp only [rowPred, Bool.and_eq_true] at h
  obtain ⟨⟨⟨⟨hre, hse⟩, hca⟩, -⟩, -⟩ := h
  rcases hnull with h0 | h0 | h0
  · rw [h0] at hre
    simp [optIsin] at hre
  · rw [h0] at hse
    simp [optIsin] at hse
  · rw [h0] at hca
    simp [optIsin] at hca

/-- Witness for C10: the defaults of the one-row table whose row has a
missing region still exclude that row. -/
theorem default_filter_excludes_null_witness :
    exPredDefault.regions = default_regions [nullRegionRow] ∧
    nullRegionRow ∉ applyFilter [nullRegionRow] exPredDefault :=
  ⟨rfl, default_filter_excludes_null [nullRegionRow] exPredDefault rfl rfl rfl
    nullRegionRow (Or.inl rfl)⟩
